import Mathlib

/-!
Verification of the fisheye primer-design core
(`src/fisheye/primer_design/main.py`).

DNA sequences are modelled as `List Char`.  Python slicing `s[a:b]` is
`pySlice s a b`; Python's `range(0, k)` over integers is rendered with the
index arithmetic done in `Int` where the original could go negative, and the
empty-range behaviour of negative bounds is reproduced with truncated `Nat`
subtraction arranged so both sides agree (`length + 1 - min_match`).
The external RNA-folding energy model (`RNA.fold_compound(...).mfe()`) is not
part of this repository; the window scanner is parametrised by an arbitrary
fold-score function standing for the already-rounded energy value.
-/

namespace Fisheye

/-- The base-pairing table of `get_base_map`: A↔T, C↔G (both cases),
N and n fixed, and every other character mapped to the NUL byte, exactly as
the 256-byte translation table built in the source. -/
def complement (c : Char) : Char :=
  if c = 'A' then 'T'
  else if c = 'T' then 'A'
  else if c = 'C' then 'G'
  else if c = 'G' then 'C'
  else if c = 'a' then 't'
  else if c = 't' then 'a'
  else if c = 'c' then 'g'
  else if c = 'g' then 'c'
  else if c = 'N' then 'N'
  else if c = 'n' then 'n'
  else Char.ofNat 0

/-- Source `reverse_complement(seq)`: reverse the string (`seq[::-1]`), then map each
character through the pairing table (`translate(BASEMAP)`). -/
def reverse_complement (s : List Char) : List Char :=
  (s.reverse).map complement

/-- The characters for which the base map of the source is defined. -/
def valid_bases : List Char := ['A', 'T', 'C', 'G', 'a', 't', 'c', 'g', 'N', 'n']

/-- Python slice `s[a:b]` (for `0 ≤ a ≤ b`): drop `a`, take `b - a`. -/
def pySlice (s : List Char) (a b : Nat) : List Char :=
  (s.drop a).take (b - a)

/-- Source `self_match(probe, min_match=4)`: count pairs of offsets `(i, j)` such
that `probe[i:i+m] == probe_re[j:j+m]` and `i + j + m - 2 != len(probe)`,
where `probe_re` is the reverse complement.  The loop bound `length + 1 -
min_match` (truncated) equals Python's `range(0, length - min_match + 1)`
count for every `length` and `min_match`; the exclusion test is integer
arithmetic, hence stated over `Int`. -/
def self_match (probe : List Char) (min_match : Nat := 4) : Nat :=
  (List.range (probe.length + 1 - min_match)).foldl (fun mp i =>
    (List.range (probe.length + 1 - min_match)).foldl (fun mp j =>
      if pySlice probe i (min_match + i) =
          pySlice (reverse_complement probe) j (min_match + j) ∧
          (i : Int) + (j : Int) + (min_match : Int) - 2 ≠ (probe.length : Int)
      then mp + 1 else mp) mp) 0

/-- Source `Counter(seg)["G"] + Counter(seg)["C"]`: occurrences of the two
uppercase strong bases in a segment. -/
def gcCount (s : List Char) : Nat := s.count 'G' + s.count 'C'

/-- Source `tm1 = 2 * (13 - cg1) + 4 * cg1` for the first window segment
`tem[0:13]`. -/
def tm1 (tem : List Char) : Int :=
  2 * (13 - (gcCount (pySlice tem 0 13) : Int)) + 4 * (gcCount (pySlice tem 0 13) : Int)

/-- Source `tm2 = 2 * (13 - cg2) + 4 * cg2` for the second window segment
`tem[13:26]`. -/
def tm2 (tem : List Char) : Int :=
  2 * (13 - (gcCount (pySlice tem 13 26) : Int)) + 4 * (gcCount (pySlice tem 13 26) : Int)

/-- Source `tm3 = 2 * (14 - cg3) + 4 * cg3` for the third window segment
`tem[27:40]` — the source uses the constant 14 here although the segment has
13 bases. -/
def tm3 (tem : List Char) : Int :=
  2 * (14 - (gcCount (pySlice tem 27 40) : Int)) + 4 * (gcCount (pySlice tem 27 40) : Int)

/-- Source `region = max(tm1, tm2, tm3) - min(tm1, tm2, tm3)`. -/
def tm_region (tem : List Char) : Int :=
  max (max (tm1 tem) (tm2 tem)) (tm3 tem) - min (min (tm1 tem) (tm2 tem)) (tm3 tem)

/-- The fixed pad-probe linker `"CCAGTGCGTCTATTTAGTGGAGCCTGCAGT"`. -/
def linker_pad : List Char := "CCAGTGCGTCTATTTAGTGGAGCCTGCAGT".toList

/-- The fixed amplification-probe linker `"ACTGCAGGCTCCA"`. -/
def linker_amp : List Char := "ACTGCAGGCTCCA".toList

/-- Accumulating a unit for each element of `range n` satisfying `Q` adds the
number of such elements. -/
lemma foldl_ite_count (Q : Nat → Prop) [DecidablePred Q] (n : Nat) :
    ∀ acc : Nat, (List.range n).foldl (fun a j => if Q j then a + 1 else a) acc
      = acc + ∑ j ∈ Finset.range n, (if Q j then 1 else 0) := by
  induction n with
  | zero => simp
  | succ n ih =>
    intro acc
    rw [List.range_succ, List.foldl_append, ih, Finset.sum_range_succ]
    simp only [List.foldl_cons, List.foldl_nil]
    by_cases h : Q n <;> simp [h, Nat.add_assoc]

/-- Accumulating `f i` over `range n` adds the sum of `f`. -/
lemma foldl_add_sum (f : Nat → Nat) (n : Nat) :
    ∀ acc : Nat, (List.range n).foldl (fun a i => a + f i) acc
      = acc + ∑ i ∈ Finset.range n, f i := by
  induction n with
  | zero => simp
  | succ n ih =>
    intro acc
    rw [List.range_succ, List.foldl_append, ih, Finset.sum_range_succ]
    simp [Nat.add_assoc]

/-- C1: for a probe of length `L` and any `minMatchLength` `m ≤ L`,
`self_match` returns exactly the number of offset pairs `(i, j)` with
`0 ≤ i, j ≤ L - m` whose length-`m` probe substring at `i` equals the
length-`m` reverse-complement substring at `j`, excluding exactly the pairs
with `i + j + m - 2 = L`. -/
theorem self_match_counts_pairs (probe : List Char) (m : Nat) (hm : m ≤ probe.length) :
    self_match probe m =
      (((Finset.range (probe.length - m + 1)) ×ˢ (Finset.range (probe.length - m + 1))).filter
        (fun p => pySlice probe p.1 (m + p.1) =
            pySlice (reverse_complement probe) p.2 (m + p.2) ∧
          (p.1 : Int) + (p.2 : Int) + (m : Int) - 2 ≠ (probe.length : Int))).card := by
  have hk : probe.length + 1 - m = probe.length - m + 1 := by omega
  unfold self_match
  rw [hk, Finset.card_filter, Finset.sum_product]
  simp only [foldl_ite_count, foldl_add_sum, Nat.zero_add]

/-- Concrete instance of `self_match_counts_pairs` at probe `"ATCG"`, `m = 4`. -/
theorem self_match_counts_pairs_witness :
    4 ≤ (['A', 'T', 'C', 'G'] : List Char).length ∧
      self_match ['A', 'T', 'C', 'G'] 4 =
        (((Finset.range ((['A', 'T', 'C', 'G'] : List Char).length - 4 + 1)) ×ˢ
            (Finset.range ((['A', 'T', 'C', 'G'] : List Char).length - 4 + 1))).filter
          (fun p => pySlice ['A', 'T', 'C', 'G'] p.1 (4 + p.1) =
              pySlice (reverse_complement ['A', 'T', 'C', 'G']) p.2 (4 + p.2) ∧
            (p.1 : Int) + (p.2 : Int) + ((4 : Nat) : Int) - 2 ≠
              (((['A', 'T', 'C', 'G'] : List Char).length : Nat) : Int))).card :=
  ⟨by decide, self_match_counts_pairs ['A', 'T', 'C', 'G'] 4 (by decide)⟩

/-- The pairing table is an involution on each mapped base. -/
lemma complement_complement {c : Char} (h : c ∈ valid_bases) :
    complement (complement c) = c := by
  simp only [valid_bases, List.mem_cons, List.not_mem_nil, or_false] at h
  rcases h with rfl | rfl | rfl | rfl | rfl | rfl | rfl | rfl | rfl | rfl <;> rfl

/-- C7: on strings over the valid DNA alphabet, reverse complement is an
involution: `reverse_complement (reverse_complement s) = s`. -/
theorem reverse_complement_involution (s : List Char) (h : ∀ c ∈ s, c ∈ valid_bases) :
    reverse_complement (reverse_complement s) = s := by
  unfold reverse_complement
  simp only [List.map_reverse, List.reverse_reverse, List.map_map]
  have hmap : s.map (complement ∘ complement) = s.map id :=
    List.map_congr_left (fun c hc => complement_complement (h c hc))
  simpa using hmap

/-- Concrete instance of `reverse_complement_involution` on `"ATCGatcgNn"`. -/
theorem reverse_complement_involution_witness :
    (∀ c ∈ (['A', 'T', 'C', 'G', 'a', 't', 'c', 'g', 'N', 'n'] : List Char), c ∈ valid_bases) ∧
      reverse_complement (reverse_complement ['A', 'T', 'C', 'G', 'a', 't', 'c', 'g', 'N', 'n'])
        = ['A', 'T', 'C', 'G', 'a', 't', 'c', 'g', 'N', 'n'] :=
  ⟨by decide, reverse_complement_involution _ (by decide)⟩

/-- Stated from the spec's words, for comparison with the code: the Wallace
rule `tm = 2*(len - GC) + 4*GC` where `len` is that segment's length and `GC`
its G/C count. -/
def wallace_tm_spec (seg : List Char) : Int :=
  2 * ((seg.length : Int) - (gcCount seg : Int)) + 4 * (gcCount seg : Int)

/-- C2 counterexample: on the all-A 40-base window the code's third-segment
value `tm3` is `2*(14-0)+4*0 = 28`, not the Wallace value of the 13-base
segment `w[27:40]`, which is 26. -/
theorem tm3_wallace_counterexample :
    tm3 (List.replicate 40 'A') ≠
      wallace_tm_spec (pySlice (List.replicate 40 'A') 27 40) := by decide

/-- C2 (amended): for every 40-base window the first two segment melting
temperatures follow the Wallace formula with the true segment length 13,
while the third segment's value is computed with the constant 14 although
`w[27:40]` has 13 bases, so it exceeds the Wallace value by exactly 2. -/
theorem tm_segment_values (w : List Char) (hw : w.length = 40) :
    tm1 w = wallace_tm_spec (pySlice w 0 13) ∧
    tm2 w = wallace_tm_spec (pySlice w 13 26) ∧
    tm3 w = wallace_tm_spec (pySlice w 27 40) + 2 := by
  have h1 : (pySlice w 0 13).length = 13 := by simp [pySlice, hw]
  have h2 : (pySlice w 13 26).length = 13 := by simp [pySlice, hw]
  have h3 : (pySlice w 27 40).length = 13 := by simp [pySlice, hw]
  refine ⟨?_, ?_, ?_⟩ <;>
    simp only [tm1, tm2, tm3, wallace_tm_spec, h1, h2, h3] <;> push_cast <;> ring

/-- Concrete instance of `tm_segment_values` on the all-G window: the three
values are 52, 52 and 54. -/
theorem tm_segment_values_witness :
    (List.replicate 40 'G' : List Char).length = 40 ∧
      (tm1 (List.replicate 40 'G') = wallace_tm_spec (pySlice (List.replicate 40 'G') 0 13) ∧
       tm2 (List.replicate 40 'G') = wallace_tm_spec (pySlice (List.replicate 40 'G') 13 26) ∧
       tm3 (List.replicate 40 'G') = wallace_tm_spec (pySlice (List.replicate 40 'G') 27 40) + 2) :=
  ⟨by decide, tm_segment_values _ (by decide)⟩

/-- Source `value.mean(axis=0)` of the four stacked metrics. -/
noncomputable def value_mean (a b c d : ℝ) : ℝ := (a + b + c + d) / 4

/-- Source `value.std(axis=0)`: the population standard deviation of the four
metrics. -/
noncomputable def value_std (a b c d : ℝ) : ℝ :=
  Real.sqrt (((a - value_mean a b c d) ^ 2 + (b - value_mean a b c d) ^ 2 +
    (c - value_mean a b c d) ^ 2 + (d - value_mean a b c d) ^ 2) / 4)

/-- Source `normalization(...)`, that is `np.sum((value - value_mean) / value_std)`, in exact
real arithmetic.  The division is unguarded in the source; when the standard
deviation is zero the float code produces a non-finite value (0/0 = NaN),
modelled here as `none`, and otherwise the finite sum of the four z-scored
components, modelled as `some`. -/
noncomputable def normalization (a b c d : ℝ) : Option ℝ :=
  if value_std a b c d = 0 then none
  else some ((a - value_mean a b c d) / value_std a b c d +
    (b - value_mean a b c d) / value_std a b c d +
    (c - value_mean a b c d) / value_std a b c d +
    (d - value_mean a b c d) / value_std a b c d)

/-- The four deviations from their own mean always sum to zero. -/
lemma sum_dev_zero (a b c d : ℝ) :
    (a - value_mean a b c d) + (b - value_mean a b c d) +
      (c - value_mean a b c d) + (d - value_mean a b c d) = 0 := by
  unfold value_mean; ring

/-- Dividing the four deviations by any common denominator still sums to
zero. -/
lemma zscore_sum_zero (a b c d s : ℝ) :
    (a - value_mean a b c d) / s + (b - value_mean a b c d) / s +
      (c - value_mean a b c d) / s + (d - value_mean a b c d) / s = 0 := by
  rw [div_add_div_same, div_add_div_same, div_add_div_same, sum_dev_zero, zero_div]

/-- The standard deviation of the four metrics vanishes exactly when the four
values coincide. -/
lemma value_std_eq_zero_iff (a b c d : ℝ) :
    value_std a b c d = 0 ↔ a = b ∧ b = c ∧ c = d := by
  constructor
  · intro h
    have hle : ((a - value_mean a b c d) ^ 2 + (b - value_mean a b c d) ^ 2 +
        (c - value_mean a b c d) ^ 2 + (d - value_mean a b c d) ^ 2) / 4 ≤ 0 :=
      Real.sqrt_eq_zero'.mp h
    have ha : a - value_mean a b c d = 0 := by
      nlinarith [sq_nonneg (a - value_mean a b c d), sq_nonneg (b - value_mean a b c d),
        sq_nonneg (c - value_mean a b c d), sq_nonneg (d - value_mean a b c d)]
    have hb : b - value_mean a b c d = 0 := by
      nlinarith [sq_nonneg (a - value_mean a b c d), sq_nonneg (b - value_mean a b c d),
        sq_nonneg (c - value_mean a b c d), sq_nonneg (d - value_mean a b c d)]
    have hc : c - value_mean a b c d = 0 := by
      nlinarith [sq_nonneg (a - value_mean a b c d), sq_nonneg (b - value_mean a b c d),
        sq_nonneg (c - value_mean a b c d), sq_nonneg (d - value_mean a b c d)]
    have hd : d - value_mean a b c d = 0 := by
      nlinarith [sq_nonneg (a - value_mean a b c d), sq_nonneg (b - value_mean a b c d),
        sq_nonneg (c - value_mean a b c d), sq_nonneg (d - value_mean a b c d)]
    refine ⟨?_, ?_, ?_⟩ <;> linarith
  · rintro ⟨rfl, rfl, rfl⟩
    unfold value_std
    rw [show ((a - value_mean a a a a) ^ 2 + (a - value_mean a a a a) ^ 2 +
      (a - value_mean a a a a) ^ 2 + (a - value_mean a a a a) ^ 2) / 4 = 0 by
        unfold value_mean; ring]
    exact Real.sqrt_zero

/-- C3: whenever the four metric values are not all equal, the composite
score is exactly zero — the self-referential normalization cannot
distinguish candidates. -/
theorem normalization_zero_of_not_all_equal (a b c d : ℝ)
    (h : ¬(a = b ∧ b = c ∧ c = d)) : normalization a b c d = some 0 := by
  have hs : value_std a b c d ≠ 0 := fun h0 => h ((value_std_eq_zero_iff a b c d).mp h0)
  unfold normalization
  rw [if_neg hs, zscore_sum_zero]

/-- Concrete instance of `normalization_zero_of_not_all_equal` at
`(0, 1, 0, 1)`. -/
theorem normalization_zero_of_not_all_equal_witness :
    ¬((0 : ℝ) = 1 ∧ (1 : ℝ) = 0 ∧ (0 : ℝ) = 1) ∧ normalization 0 1 0 1 = some 0 :=
  ⟨by simp, normalization_zero_of_not_all_equal 0 1 0 1 (by simp)⟩

/-- C10: when the four metrics are all equal the unguarded division by the
zero standard deviation produces a non-finite result (modelled as `none`),
and on no input does `normalization` produce a finite nonzero score. -/
theorem normalization_never_finite_nonzero (a b c d : ℝ) :
    ((a = b ∧ b = c ∧ c = d) → normalization a b c d = none) ∧
    (normalization a b c d = none ∨ normalization a b c d = some 0) := by
  constructor
  · intro h
    unfold normalization
    rw [if_pos ((value_std_eq_zero_iff a b c d).mpr h)]
  · by_cases hs : value_std a b c d = 0
    · left; unfold normalization; rw [if_pos hs]
    · right; unfold normalization; rw [if_neg hs, zscore_sum_zero]

/-- Concrete instance of `normalization_never_finite_nonzero` at
`(2, 2, 2, 2)`. -/
theorem normalization_never_finite_nonzero_witness :
    (((2 : ℝ) = 2 ∧ (2 : ℝ) = 2 ∧ (2 : ℝ) = 2) → normalization 2 2 2 2 = none) ∧
    (normalization 2 2 2 2 = none ∨ normalization 2 2 2 2 = some 0) :=
  normalization_never_finite_nonzero 2 2 2 2

/-- One row of the per-gene result table, with the source's column names
(`conbined_score` sic).  `RNAfold_score` is the externally computed folding
energy, already rounded by the caller of the external model. -/
structure Row where
  point1 : Nat
  point2 : Nat
  tm_region : Int
  tm1 : Int
  tm2 : Int
  tm3 : Int
  RNAfold_score : ℚ
  conbined_score : Option ℝ
  primer1 : List Char
  primer2 : List Char

/-- The body of the window loop of `primer_design`: slice the window into
`tem[0:13]`, `tem[13:26]`, `tem[27:40]` and `tem[26]`, assemble the two
probes with the fixed linkers, score both probes with `self_match`, and
combine the metrics with `normalization`.  The external fold model
`RNA.fold_compound(tem).mfe()[1]` (with its rounding) is the opaque
parameter `fold`. -/
noncomputable def primer_row (fold : List Char → ℚ) (tem : List Char) : Row :=
  let pad_probe := reverse_complement (pySlice tem 0 13) ++ linker_pad ++
    reverse_complement (pySlice tem 13 26)
  let amp_probe := reverse_complement (pySlice tem 27 40) ++ pySlice tem 26 27 ++ linker_amp
  let match_pairs_pad := self_match pad_probe
  let match_pairs_amp := self_match amp_probe
  { point1 := match_pairs_pad
    point2 := match_pairs_amp
    tm_region := tm_region tem
    tm1 := tm1 tem
    tm2 := tm2 tem
    tm3 := tm3 tem
    RNAfold_score := fold tem
    conbined_score := normalization (match_pairs_pad : ℝ) (match_pairs_amp : ℝ)
      ((tm_region tem : Int) : ℝ) ((fold tem : ℚ) : ℝ)
    primer1 := pad_probe
    primer2 := amp_probe }

/-- The window loop of `primer_design`: for `i` in `range(0, len(seq) - 40 + 1)`
append the row built from the window `seq[i:40+i]` to `df_lst`. -/
noncomputable def primer_design (fold : List Char → ℚ) (seq : List Char)
    (min_length : Nat := 40) : List Row :=
  (List.range (seq.length + 1 - min_length)).foldl
    (fun df_lst i => df_lst ++ [primer_row fold (pySlice seq i (min_length + i))]) []

/-- The comparison used by `df.sort_values(['conbined_score'])`: order rows
by combined score, non-finite scores first. -/
def rowLE (r1 r2 : Row) : Prop :=
  match r1.conbined_score, r2.conbined_score with
  | none, _ => True
  | some _, none => False
  | some x, some y => x ≤ y

noncomputable instance : DecidableRel rowLE := Classical.decRel _

/-- Source `df.sort_values(['conbined_score'])`: the sorted copy of the table. -/
noncomputable def sort_values (df : List Row) : List Row := List.insertionSort rowLE df

/-- The value returned by `primer_design`: the sorted table is computed but
not reassigned (`df.sort_values(...)` on its own line), and the unsorted
`df` is returned. -/
noncomputable def primer_design_table (fold : List Char → ℚ) (seq : List Char) : List Row :=
  let df := primer_design fold seq
  let _sorted := sort_values df
  df

/-- Appending one image per element in a fold builds `init ++ l.map f`. -/
lemma foldl_append_map {α β : Type} (f : α → β) :
    ∀ (l : List α) (init : List β),
      l.foldl (fun acc x => acc ++ [f x]) init = init ++ l.map f := by
  intro l
  induction l with
  | nil => simp
  | cons x t ih => intro init; simp [ih]

/-- The window loop produces exactly the rows of the windows at offsets
`0 .. len - 40`, in offset order. -/
lemma primer_design_eq_map (fold : List Char → ℚ) (seq : List Char) :
    primer_design fold seq = (List.range (seq.length + 1 - 40)).map
      (fun j => primer_row fold (pySlice seq j (40 + j))) := by
  unfold primer_design
  rw [foldl_append_map]
  simp

/-- Row `i` of the scan is the row of the window at offset `i`. -/
lemma primer_design_get (fold : List Char → ℚ) (seq : List Char) (i : Nat)
    (h40 : 40 ≤ seq.length) (hi : i ≤ seq.length - 40) :
    (primer_design fold seq)[i]? = some (primer_row fold (pySlice seq i (40 + i))) := by
  rw [primer_design_eq_map, List.getElem?_map, List.getElem?_range (by omega)]
  rfl

/-- C4: for a sequence of length `N ≥ 40` the scan emits exactly
`N - 40 + 1` rows, and row `i` is the scored candidate of the window at
offset `i`. -/
theorem primer_design_window_rows (fold : List Char → ℚ) (seq : List Char) (i : Nat)
    (h40 : 40 ≤ seq.length) (hi : i ≤ seq.length - 40) :
    (primer_design fold seq).length = seq.length - 40 + 1 ∧
    (primer_design fold seq)[i]? = some (primer_row fold (pySlice seq i (40 + i))) := by
  refine ⟨?_, primer_design_get fold seq i h40 hi⟩
  rw [primer_design_eq_map]
  simp only [List.length_map, List.length_range]
  omega

/-- Concrete instance of `primer_design_window_rows`: a length-41 sequence
gives two rows, and row 1 is the offset-1 window's row. -/
theorem primer_design_window_rows_witness :
    (40 ≤ (List.replicate 41 'A' : List Char).length ∧
      1 ≤ (List.replicate 41 'A' : List Char).length - 40) ∧
    ((primer_design (fun _ => (0 : ℚ)) (List.replicate 41 'A')).length =
        (List.replicate 41 'A' : List Char).length - 40 + 1 ∧
      (primer_design (fun _ => (0 : ℚ)) (List.replicate 41 'A'))[1]? =
        some (primer_row (fun _ => (0 : ℚ)) (pySlice (List.replicate 41 'A') 1 (40 + 1)))) :=
  ⟨⟨by decide, by decide⟩,
    primer_design_window_rows (fun _ => (0 : ℚ)) (List.replicate 41 'A') 1 (by decide) (by decide)⟩

/-- C6: the sorted table is discarded — the returned table equals the
unsorted one, whose row `i` is still the offset-`i` candidate, so the output
keeps the original offset order. -/
theorem primer_design_sort_discarded (fold : List Char → ℚ) (seq : List Char) (i : Nat)
    (h40 : 40 ≤ seq.length) (hi : i ≤ seq.length - 40) :
    primer_design_table fold seq = primer_design fold seq ∧
    (primer_design_table fold seq)[i]? =
      some (primer_row fold (pySlice seq i (40 + i))) := by
  exact ⟨rfl, primer_design_get fold seq i h40 hi⟩

/-- Concrete instance of `primer_design_sort_discarded` on a length-41
sequence at row 1. -/
theorem primer_design_sort_discarded_witness :
    (40 ≤ (List.replicate 41 'C' : List Char).length ∧
      1 ≤ (List.replicate 41 'C' : List Char).length - 40) ∧
    (primer_design_table (fun _ => (0 : ℚ)) (List.replicate 41 'C') =
        primer_design (fun _ => (0 : ℚ)) (List.replicate 41 'C') ∧
      (primer_design_table (fun _ => (0 : ℚ)) (List.replicate 41 'C'))[1]? =
        some (primer_row (fun _ => (0 : ℚ)) (pySlice (List.replicate 41 'C') 1 (40 + 1)))) :=
  ⟨⟨by decide, by decide⟩,
    primer_design_sort_discarded (fun _ => (0 : ℚ)) (List.replicate 41 'C') 1
      (by decide) (by decide)⟩

/-- C8: each emitted probe pair is assembled exactly as
`revcomp(w[0:13]) ++ padLinker ++ revcomp(w[13:26])` and
`revcomp(w[27:40]) ++ w[26] ++ ampLinker`, so the two fixed linkers appear
verbatim in every pair; for a 40-base window the probes have lengths 56 and
27. -/
theorem probe_assembly (fold : List Char → ℚ) (w : List Char) (hw : w.length = 40) :
    (primer_row fold w).primer1 =
      reverse_complement (pySlice w 0 13) ++ linker_pad ++
        reverse_complement (pySlice w 13 26) ∧
    (primer_row fold w).primer2 =
      reverse_complement (pySlice w 27 40) ++ pySlice w 26 27 ++ linker_amp ∧
    (primer_row fold w).primer1.length = 56 ∧
    (primer_row fold w).primer2.length = 27 := by
  have h1 : (pySlice w 0 13).length = 13 := by simp [pySlice, hw]
  have h2 : (pySlice w 13 26).length = 13 := by simp [pySlice, hw]
  have h3 : (pySlice w 27 40).length = 13 := by simp [pySlice, hw]
  have h4 : (pySlice w 26 27).length = 1 := by simp [pySlice, hw]
  have hlp : linker_pad.length = 30 := rfl
  have hla : linker_amp.length = 13 := rfl
  refine ⟨rfl, rfl, ?_, ?_⟩ <;>
    simp [primer_row, reverse_complement, h1, h2, h3, h4, hlp, hla]

/-- Concrete instance of `probe_assembly` on the all-A window. -/
theorem probe_assembly_witness :
    (List.replicate 40 'T' : List Char).length = 40 ∧
    ((primer_row (fun _ => (0 : ℚ)) (List.replicate 40 'T')).primer1 =
        reverse_complement (pySlice (List.replicate 40 'T') 0 13) ++ linker_pad ++
          reverse_complement (pySlice (List.replicate 40 'T') 13 26) ∧
      (primer_row (fun _ => (0 : ℚ)) (List.replicate 40 'T')).primer2 =
        reverse_complement (pySlice (List.replicate 40 'T') 27 40) ++
          pySlice (List.replicate 40 'T') 26 27 ++ linker_amp ∧
      (primer_row (fun _ => (0 : ℚ)) (List.replicate 40 'T')).primer1.length = 56 ∧
      (primer_row (fun _ => (0 : ℚ)) (List.replicate 40 'T')).primer2.length = 27) :=
  ⟨by decide, probe_assembly (fun _ => (0 : ℚ)) (List.replicate 40 'T') (by decide)⟩

/-- One genomic interval as grouped by `sequence_pickup`: the grouping key
columns `(chr, start, end, length, strand)` (`end` is named `stop`). -/
structure Interval where
  chr : String
  start : Int
  stop : Int
  length : Int
  strand : String
deriving DecidableEq

/-- The support count of an interval group: how many identical annotation
rows collapse onto this key (`groupby(...).count()` of a non-null column). -/
def support (rs : List Interval) (g : Interval) : Nat := rs.count g

/-- The distinct grouping keys (`groupby` group labels). -/
def groups (rs : List Interval) : List Interval := rs.dedup

/-- Column maximum `.max()`: the largest element of a list, `none` on the empty
list. -/
def list_max {α : Type} [LinearOrder α] : List α → Option α
  | [] => none
  | x :: t =>
    match list_max t with
    | none => some x
    | some y => some (max x y)

/-- The maximum is `none` exactly on the empty list. -/
lemma list_max_eq_none {α : Type} [LinearOrder α] {l : List α} :
    list_max l = none ↔ l = [] := by
  cases l with
  | nil => simp [list_max]
  | cons x t =>
    simp only [list_max]
    cases ht : list_max t <;> simp

/-- Characterization: `list_max l = some m` exactly when `m` is a member of `l` bounding every
member of `l`. -/
lemma list_max_spec {α : Type} [LinearOrder α] {l : List α} {m : α} :
    list_max l = some m ↔ m ∈ l ∧ ∀ y ∈ l, y ≤ m := by
  induction l generalizing m with
  | nil => simp [list_max]
  | cons x t ih =>
    cases ht : list_max t with
    | none =>
      have ht' : t = [] := list_max_eq_none.mp ht
      subst ht'
      constructor
      · intro h
        simp only [list_max] at h
        rw [Option.some_inj] at h
        subst h
        exact ⟨List.mem_singleton_self x, by
          intro y hy
          rw [List.mem_singleton] at hy
          exact le_of_eq hy⟩
      · rintro ⟨hm, _⟩
        rw [List.mem_singleton] at hm
        subst hm
        simp [list_max]
    | some y =>
      obtain ⟨hyt, hyb⟩ := ih.mp ht
      constructor
      · intro h
        simp only [list_max, ht, Option.some_inj] at h
        subst h
        rcases le_total x y with hxy | hyx
        · rw [max_eq_right hxy]
          refine ⟨List.mem_cons_of_mem x hyt, ?_⟩
          intro z hz
          rcases List.mem_cons.mp hz with rfl | hz'
          · exact hxy
          · exact hyb z hz'
        · rw [max_eq_left hyx]
          refine ⟨List.mem_cons_self x t, ?_⟩
          intro z hz
          rcases List.mem_cons.mp hz with rfl | hz'
          · exact le_refl _
          · exact le_trans (hyb z hz') hyx
      · rintro ⟨hm, hb⟩
        simp only [list_max, ht, Option.some_inj]
        apply le_antisymm
        · exact max_le (hb x (List.mem_cons_self x t))
            (le_trans (le_refl y) (hb y (List.mem_cons_of_mem x hyt)))
        · rcases List.mem_cons.mp hm with rfl | hmt
          · exact le_max_left _ _
          · exact le_trans (hyb m hmt) (le_max_right _ _)

/-- Source `cnts_max = cds_cnts[cds_cnts['type'] == cds_cnts['type'].max()]`: the
groups whose support count attains the maximum count. -/
def cnts_max (rs : List Interval) : List Interval :=
  (groups rs).filter
    (fun g => decide (list_max ((groups rs).map (support rs)) = some (support rs g)))

/-- Source `cds_select = cnts_max[cnts_max['length'] == cnts_max['length'].max()]`:
among those, the groups of maximum length. -/
def cds_select (rs : List Interval) : List Interval :=
  (cnts_max rs).filter
    (fun g => decide (list_max ((cnts_max rs).map Interval.length) = some g.length))

/-- Source `cds_select.iloc[0]`: the first remaining row, if any. -/
def pick_first (rs : List Interval) : Option Interval := (cds_select rs).head?

/-- The selection property of the spec: a group of maximum support count
whose length is maximal among the groups tied at that count. -/
def winner (rs : List Interval) (g : Interval) : Prop :=
  g ∈ rs ∧ (∀ h ∈ rs, support rs h ≤ support rs g) ∧
    (∀ h ∈ rs, support rs h = support rs g → h.length ≤ g.length)

instance (rs : List Interval) (g : Interval) : Decidable (winner rs g) :=
  inferInstanceAs (Decidable (g ∈ rs ∧ (∀ h ∈ rs, support rs h ≤ support rs g) ∧
    (∀ h ∈ rs, support rs h = support rs g → h.length ≤ g.length)))

/-- Every row surviving both pandas filters is a winner, and each winner
survives them. -/
lemma winner_mem_cds_select {rs : List Interval} {g : Interval} (hw : winner rs g) :
    g ∈ cds_select rs ∧ ∀ x ∈ cds_select rs, winner rs x := by
  obtain ⟨hg, hsup, hlen⟩ := hw
  have hmax1 : list_max ((groups rs).map (support rs)) = some (support rs g) := by
    apply list_max_spec.mpr
    refine ⟨List.mem_map_of_mem _ (List.mem_dedup.mpr hg), ?_⟩
    intro y hy
    obtain ⟨h, hh, rfl⟩ := List.mem_map.mp hy
    exact hsup h (List.mem_dedup.mp hh)
  have hmem1 : ∀ x, x ∈ cnts_max rs ↔ x ∈ rs ∧ support rs x = support rs g := by
    intro x
    unfold cnts_max
    rw [List.mem_filter]
    rw [decide_eq_true_eq, hmax1, Option.some_inj]
    unfold groups
    rw [List.mem_dedup]
    constructor
    · rintro ⟨h1, h2⟩; exact ⟨h1, h2.symm⟩
    · rintro ⟨h1, h2⟩; exact ⟨h1, h2.symm⟩
  have hgc : g ∈ cnts_max rs := (hmem1 g).mpr ⟨hg, rfl⟩
  have hmax2 : list_max ((cnts_max rs).map Interval.length) = some g.length := by
    apply list_max_spec.mpr
    refine ⟨List.mem_map_of_mem _ hgc, ?_⟩
    intro y hy
    obtain ⟨x, hx, rfl⟩ := List.mem_map.mp hy
    obtain ⟨hxr, hxs⟩ := (hmem1 x).mp hx
    exact hlen x hxr hxs
  have hmem2 : ∀ x, x ∈ cds_select rs ↔
      x ∈ rs ∧ support rs x = support rs g ∧ x.length = g.length := by
    intro x
    unfold cds_select
    rw [List.mem_filter, decide_eq_true_eq, hmax2, Option.some_inj, hmem1 x]
    constructor
    · rintro ⟨⟨h1, h2⟩, h3⟩; exact ⟨h1, h2, h3.symm⟩
    · rintro ⟨h1, h2, h3⟩; exact ⟨⟨h1, h2⟩, h3.symm⟩
  refine ⟨(hmem2 g).mpr ⟨hg, rfl, rfl⟩, ?_⟩
  intro x hx
  obtain ⟨hxr, hxs, hxl⟩ := (hmem2 x).mp hx
  refine ⟨hxr, ?_, ?_⟩
  · intro h hh
    rw [hxs]
    exact hsup h hh
  · intro h hh hhs
    rw [hxl]
    exact hlen h hh (by rw [← hxs]; exact hhs)

/-- The winner property is invariant under permuting the rows. -/
lemma winner_perm {rs rs' : List Interval} (hp : rs.Perm rs') {g : Interval} :
    winner rs g ↔ winner rs' g := by
  unfold winner support
  simp only [hp.count_eq, hp.mem_iff]

/-- C5: when the maximum is unique, the selector returns the group with the
maximum support count, of maximum length among the groups tied at that
count, independently of the order of the input records. -/
theorem representative_region_selector (rs rs' : List Interval) (hp : rs.Perm rs')
    (g : Interval) (hw : winner rs g) (huniq : ∀ x ∈ rs, winner rs x → x = g) :
    pick_first rs = some g ∧ pick_first rs' = some g ∧
    (∀ h ∈ rs, support rs h ≤ support rs g) ∧
    (∀ h ∈ rs, support rs h = support rs g → h.length ≤ g.length) := by
  have main : ∀ l : List Interval, winner l g → (∀ x ∈ l, winner l x → x = g) →
      pick_first l = some g := by
    intro l hwl hul
    obtain ⟨hmem, hall⟩ := winner_mem_cds_select hwl
    cases hsel : cds_select l with
    | nil => rw [hsel] at hmem; exact absurd hmem (List.not_mem_nil g)
    | cons a t =>
      have ha : a ∈ cds_select l := by rw [hsel]; exact List.mem_cons_self a t
      have hag : a = g := hul a (hall a ha).1 (hall a ha)
      unfold pick_first
      rw [hsel, hag]
      rfl
  have hw' : winner rs' g := (winner_perm hp).mp hw
  have hu' : ∀ x ∈ rs', winner rs' x → x = g := fun x hx hwx =>
    huniq x (hp.mem_iff.mpr hx) ((winner_perm hp).mpr hwx)
  exact ⟨main rs hw huniq, main rs' hw' hu', hw.2.1, hw.2.2⟩

/-- A doubly supported 100-base CDS group. -/
def sample_iv1 : Interval := ⟨"chr1", 100, 200, 100, "+"⟩

/-- A singly supported 50-base CDS group. -/
def sample_iv2 : Interval := ⟨"chr1", 300, 350, 50, "+"⟩

/-- Records in one incidental order. -/
def sample_regions : List Interval := [sample_iv1, sample_iv2, sample_iv1]

/-- The same records, permuted. -/
def sample_regions_rev : List Interval := [sample_iv2, sample_iv1, sample_iv1]

/-- Concrete instance of `representative_region_selector`: the group with
support 2 is selected from both orders. -/
theorem representative_region_selector_witness :
    (sample_regions.Perm sample_regions_rev ∧ winner sample_regions sample_iv1 ∧
      (∀ x ∈ sample_regions, winner sample_regions x → x = sample_iv1)) ∧
    (pick_first sample_regions = some sample_iv1 ∧
      pick_first sample_regions_rev = some sample_iv1 ∧
      (∀ h ∈ sample_regions, support sample_regions h ≤ support sample_regions sample_iv1) ∧
      (∀ h ∈ sample_regions, support sample_regions h = support sample_regions sample_iv1 →
        h.length ≤ sample_iv1.length)) :=
  ⟨⟨by decide, by decide, by decide⟩,
    representative_region_selector sample_regions sample_regions_rev (by decide)
      sample_iv1 (by decide) (by decide)⟩

/-- One row of the annotation table as used by `sequence_pickup`:
`(chr, type, start, end, strand, gene_name)` with `length = end - start`
(`end` is named `stop`). -/
structure AnnRec where
  chr : String
  type : String
  start : Int
  stop : Int
  strand : String
  gene_name : String
deriving DecidableEq

/-- The derived `length` column: `end - start`. -/
def AnnRec.length (r : AnnRec) : Int := r.stop - r.start

/-- The grouping key of a record: the columns kept by the `groupby`. -/
def AnnRec.toInterval (r : AnnRec) : Interval :=
  ⟨r.chr, r.start, r.stop, r.length, r.strand⟩

/-- The per-gene filters of `sequence_pickup`:
`df_gene = df_gtf[df_gtf.gene_name == name]`, then `type == 'CDS'`, then
`length > min_length`. -/
def gene_cds (df : List AnnRec) (name : String) (min_length : Int) : List AnnRec :=
  ((df.filter (fun r => decide (r.gene_name = name))).filter
    (fun r => decide (r.type = "CDS"))).filter
    (fun r => decide (min_length < r.length))

/-- The per-gene body of `sequence_pickup`: group the filtered CDS rows,
keep the maximum-count then maximum-length group, and take
`cds_select.iloc[0]`.  On an empty selection `iloc[0]` raises an unhandled
`IndexError`, modelled as `Except.error`.  The subsequent FASTA fetch and
strand-dependent reverse complement act on external data and are outside
the selected interval computation. -/
def pickup_gene (df : List AnnRec) (name : String) (min_length : Int) :
    Except String Interval :=
  match pick_first ((gene_cds df name min_length).map AnnRec.toInterval) with
  | some g => Except.ok g
  | none => Except.error "IndexError"

/-- The gene loop of `sequence_pickup`: one selection per listed gene; an
unhandled exception in any gene aborts the whole run, so the loop is the
monadic map over `Except`. -/
def sequence_pickup (df : List AnnRec) (genes : List String)
    (min_length : Int := 40) : Except String (List (String × Interval)) :=
  genes.mapM (fun name => (pickup_gene df name min_length).map (fun g => (name, g)))

/-- A gene whose only CDS is 10 bases long: below the minimum length. -/
def short_cds : AnnRec := ⟨"chr1", "CDS", 0, 10, "+", "g1"⟩

/-- A gene with a viable 50-base CDS. -/
def good_cds : AnnRec := ⟨"chr1", "CDS", 100, 150, "+", "g2"⟩

/-- C9 (code behaviour at the failing input): with gene `g1` having no CDS
above the minimum length, the selection hits `iloc[0]` on an empty frame and
the unhandled `IndexError` aborts the whole run — the viable gene `g2` is
never processed, although on its own `g2` selects fine.  The spec instead
requires a per-gene `NoViableRegion` failure with the run continuing. -/
theorem sequence_pickup_unhandled_index_error :
    sequence_pickup [short_cds, good_cds] ["g1", "g2"] 40 = Except.error "IndexError" ∧
    pickup_gene [short_cds, good_cds] "g2" 40 =
      Except.ok ⟨"chr1", 100, 150, 50, "+"⟩ :=
  ⟨rfl, rfl⟩

end Fisheye
